import Mathlib

/-!
Verification of the ossm-rust motion pipeline against its specification.

The Rust sources (src/motion.rs, src/motor_57aim30.rs) are shallowly embedded
here.  Conventions used throughout:

* `f32` values are modelled as exact rationals (`ℚ`).  The claims under
  scrutiny are stated with explicit tolerances (1e-3, 0.01, …) that absorb
  floating-point rounding, so exact rational arithmetic is the faithful
  idealisation of the algorithms.  The sine waveform is the one exception:
  `sin`/`asin` are transcendental, so `SineWaveform` is embedded over `ℝ`
  with `Real.sin`/`Real.arcsin`.
* `i32`/`u32` are modelled as `ℤ`/`ℕ`, with truncation (`as i32`) and
  wrap-around (`u32` addition, `% 2^32`) made explicit where they occur.
* `std::time::Instant` is modelled as a rational number of seconds on a
  global monotonic clock; `duration_since(t0)` becomes `now - t0`.
* Fallible Rust functions returning `anyhow::Result` are modelled with
  `Except String`.
-/

namespace OSSM

/-- Rust `f32 as i32` / `f32::trunc`: rounding toward zero.  (Saturation at
the `i32` range limits is not modelled; all values in the claims are far from
the limits.) -/
def ratTrunc (x : ℚ) : ℤ := if 0 ≤ x then ⌊x⌋ else ⌈x⌉

/-- Rust `%` on `f32` with modulus `1.0`: `x - x.trunc()`.  For `x ≥ 0` this
is the fractional part. -/
def rustMod1 (x : ℚ) : ℚ := x - ratTrunc x

theorem rustMod1_eq_fract {x : ℚ} (hx : 0 ≤ x) : rustMod1 x = Int.fract x := by
  rw [rustMod1, ratTrunc, if_pos hx, Int.fract]

theorem rustMod1_nonneg {x : ℚ} (hx : 0 ≤ x) : 0 ≤ rustMod1 x := by
  rw [rustMod1_eq_fract hx]; exact Int.fract_nonneg x

theorem rustMod1_lt_one {x : ℚ} (hx : 0 ≤ x) : rustMod1 x < 1 := by
  rw [rustMod1_eq_fract hx]; exact Int.fract_lt_one x

theorem rustMod1_idem {x : ℚ} (hx : 0 ≤ x) :
    rustMod1 (rustMod1 x) = rustMod1 x := by
  rw [rustMod1_eq_fract hx, rustMod1_eq_fract (Int.fract_nonneg x),
    Int.fract_fract]

/-- `f32::MAX`, exactly: `(2 - 2^-23) * 2^127`. -/
def f32Max : ℚ := 2 ^ 128 - 2 ^ 104

-- ===== Shaper (src/motion.rs lines 294-456) =====

/-- `DepthDirection` from src/motion.rs. -/
inductive DepthDirection
  | Top
  | Bottom
deriving DecidableEq

/-- `Shaper` state from src/motion.rs. -/
structure Shaper where
  target_depth : ℚ
  current_depth : ℚ
  direction : DepthDirection
  target_reversed : Bool
  current_reversal : ℚ
  transitioning : Bool
deriving DecidableEq

def TRANSITION_SPEED : ℚ := 1 / 10
def REVERSAL_SPEED : ℚ := 1 / 2
def PAUSE_SPEED : ℚ := 3 / 10
def TRANSITION_THRESHOLD : ℚ := 1 / 100

/-- `Shaper::new`. -/
def Shaper.new (depth : ℚ) (direction : DepthDirection) (reversed : Bool) :
    Shaper where
  target_depth := depth
  current_depth := depth
  direction := direction
  target_reversed := reversed
  current_reversal := if reversed then 1 else 0
  transitioning := true

/-- `Shaper::set_params`. -/
def Shaper.set_params (s : Shaper) (new_depth : ℚ)
    (new_direction : DepthDirection) (new_reversed : Bool) : Shaper :=
  let depth_changed := |s.target_depth - new_depth| > TRANSITION_THRESHOLD
  let reversal_changed := s.target_reversed ≠ new_reversed
  { s with
    transitioning := if depth_changed ∨ reversal_changed then true
                     else s.transitioning
    target_depth := new_depth
    direction := new_direction
    target_reversed := new_reversed }

/-- `Shaper::shape`: advances the transition state by `dt`, then applies the
reversal blend followed by the depth window.  The mutated shaper is returned
alongside the output pair `(shaped_y, shaped_speed)`. -/
def Shaper.shape (s : Shaper) (y_in speed_in dt : ℚ) : Shaper × ℚ × ℚ :=
  let s :=
    if s.transitioning then
      let depth_diff := s.target_depth - s.current_depth
      let (current_depth, depth_done) :=
        if |depth_diff| < TRANSITION_THRESHOLD then (s.target_depth, true)
        else
          let step := TRANSITION_SPEED * dt
          if depth_diff > 0 then (min (s.current_depth + step) s.target_depth, false)
          else (max (s.current_depth - step) s.target_depth, false)
      let target_reversal : ℚ := if s.target_reversed then 1 else 0
      let reversal_diff := target_reversal - s.current_reversal
      let (current_reversal, reversal_done) :=
        if |reversal_diff| < TRANSITION_THRESHOLD then (target_reversal, true)
        else
          let step := REVERSAL_SPEED * dt
          if reversal_diff > 0 then (min (s.current_reversal + step) target_reversal, false)
          else (max (s.current_reversal - step) target_reversal, false)
      { s with
        current_depth := current_depth
        current_reversal := current_reversal
        transitioning := ¬(depth_done ∧ reversal_done) }
    else s
  let r := s.current_reversal
  let y := y_in * (1 - r) + (1 - y_in) * r
  let speed := speed_in * (1 - 2 * r)
  match s.direction with
  | .Top => (s, y * s.current_depth, speed * s.current_depth)
  | .Bottom => (s, y * s.current_depth + (1 - s.current_depth),
                speed * s.current_depth)

/-- `Shaper::unshape`.  (In the source the near-zero depth test is duplicated
in both `match` arms; it is hoisted in front of the `match` here, which is
equivalent.) -/
def Shaper.unshape (s : Shaper) (y_shaped : ℚ) : Option ℚ :=
  if s.transitioning then none
  else if s.current_depth < TRANSITION_THRESHOLD then none
  else
    let y_after_reversal :=
      match s.direction with
      | .Top => y_shaped / s.current_depth
      | .Bottom => (y_shaped - (1 - s.current_depth)) / s.current_depth
    let r := s.current_reversal
    let denominator := 1 - 2 * r
    if |denominator| < TRANSITION_THRESHOLD then none
    else some (min (max ((y_after_reversal - r) / denominator) 0) 1)

-- ===== Position generator (src/motion.rs lines 461-477) =====

/-- `PositionGenerator` state. -/
structure PositionGenerator where
  pos_min : ℤ
  pos_max : ℤ

/-- `PositionGenerator::generate`.  The position is computed in `f32` and cast
with `as i32`, i.e. truncated toward zero — modelled by `ratTrunc`. -/
def PositionGenerator.generate (p : PositionGenerator) (y speed_y : ℚ) :
    ℤ × ℚ :=
  let pos_range : ℚ := ((p.pos_max - p.pos_min : ℤ) : ℚ)
  (ratTrunc (y * pos_range + (p.pos_min : ℚ)), speed_y * pos_range)

-- ===== Motor driver homing (src/motor_57aim30.rs lines 283-305) =====

/-- The physical motor as seen by `homing`: `stable c` is the stable position
reported by `wait_stable_position` after `write_position(c)` has been issued
and the 5 s settle has elapsed.  The Modbus exchanges, delays and the
timeout/instability error paths of the driver are outside this model. -/
structure FakeMotor where
  stable : ℤ → ℤ

/-- Result of `Modbus57AIM30Motor::homing`: the captured range and the final
`write_position` argument. -/
structure HomingOutcome where
  pos_min : ℤ
  pos_max : ℤ
  final_command : ℤ
deriving DecidableEq

/-- `Modbus57AIM30Motor::homing`: command `-10^6`, take the stable reading
plus 3000 as `pos_min`; command `10^6`, take the stable reading minus 3000 as
`pos_max`; finally command the mid-range `(pos_min + pos_max) / 2` (Rust `i32`
division truncates toward zero, hence `Int.tdiv`). -/
def homing (m : FakeMotor) : HomingOutcome :=
  let pos_min := m.stable (-1000000) + 3000
  let pos_max := m.stable 1000000 - 3000
  { pos_min := pos_min
    pos_max := pos_max
    final_command := Int.tdiv (pos_min + pos_max) 2 }

-- ===== Modbus timeouts (src/motor_57aim30.rs lines 44-52) =====

/-- `ModbusRTUMaster::get_operation_timeout`, parametrised by the RTOS tick
rate (`TICK_RATE_HZ`, ticks per second; the source divides it by 10/20/40/200,
so the timeouts are 1/10, 1/20, 1/40 and 1/200 of a second in ticks).  Note
the source arm `115200 | 115201`. -/
def get_operation_timeout (tickRateHz : ℕ) (baudrate : ℕ) :
    Except String ℕ :=
  match baudrate with
  | 9600 => .ok (tickRateHz / 10)
  | 19200 => .ok (tickRateHz / 20)
  | 38400 => .ok (tickRateHz / 40)
  | 115200 => .ok (tickRateHz / 200)
  | 115201 => .ok (tickRateHz / 200)
  | _ => .error ("Invalid baud rate")

-- ===== Waveform generators (src/motion.rs lines 13-289) =====

/-- `SineWaveform::evaluate` (src/motion.rs lines 23-34), over `ℝ` because of
the transcendental `sin`/`cos`. -/
noncomputable def SineWaveform.evaluate (time_offset_seconds bpm : ℝ) :
    ℝ × ℝ :=
  let freq := bpm / 60
  let phase_rads := 2 * Real.pi * time_offset_seconds * freq
  (Real.sin phase_rads / 2 + 1 / 2,
   Real.pi * freq * Real.cos phase_rads)

/-- `SineWaveform::find_x_for_y` (src/motion.rs lines 36-51). -/
noncomputable def SineWaveform.find_x_for_y (y : ℝ) : ℝ :=
  let normalized := (y - 1 / 2) * 2
  let clamped := min (max normalized (-1)) 1
  let angle := Real.arcsin clamped
  let x := angle / (2 * Real.pi)
  if x < 0 then x + 1 else x

/-- The `smootherstep` closure in `ThrustWaveform::evaluate`, including its
clamp of the argument to `[0, 1]`. -/
def smootherstep (t : ℚ) : ℚ :=
  let t := min (max t 0) 1
  t * t * t * (t * (t * 6 - 15) + 10)

/-- The `smootherstep_derivative` closure in `ThrustWaveform::evaluate`. -/
def smootherstep_derivative (t : ℚ) : ℚ :=
  let t := min (max t 0) 1
  30 * t * t * (t - 1) * (t - 1)

/-- `ThrustWaveform` state. -/
structure ThrustWaveform where
  sharpness : ℚ

/-- `ThrustWaveform::evaluate` (src/motion.rs lines 65-106). -/
def ThrustWaveform.evaluate (w : ThrustWaveform)
    (time_offset_seconds bpm : ℚ) : ℚ × ℚ :=
  let freq := bpm / 60
  let cycles := time_offset_seconds * freq
  let x := rustMod1 cycles
  let rise_duration := min (max w.sharpness (1 / 100)) (99 / 100)
  if x < rise_duration then
    let t := x / rise_duration
    let dy_dx := smootherstep_derivative t / rise_duration
    (smootherstep t, dy_dx * freq)
  else
    let t := (x - rise_duration) / (1 - rise_duration)
    let dy_dx := -smootherstep_derivative t / (1 - rise_duration)
    (1 - smootherstep t, dy_dx * freq)

/-- The 20-iteration bisection loop of `ThrustWaveform::find_x_for_y`
(src/motion.rs lines 108-131), with the remaining iteration count made an
explicit fuel argument. -/
def ThrustWaveform.findLoop (w : ThrustWaveform) (target_y : ℚ) :
    ℕ → ℚ → ℚ → ℚ
  | 0, left, right => (left + right) / 2
  | n + 1, left, right =>
    let mid := (left + right) / 2
    let mid_y := (w.evaluate (mid * 60) 1).1
    if |mid_y - target_y| < 1 / 1000 then mid
    else if mid_y < target_y then w.findLoop target_y n mid right
    else w.findLoop target_y n left mid

/-- `ThrustWaveform::find_x_for_y`: clamp the target to `[0, 1]`, run 20
bisection iterations, return the midpoint of the final bracket. -/
def ThrustWaveform.find_x_for_y (w : ThrustWaveform) (y : ℚ) : ℚ :=
  w.findLoop (min (max y 0) 1) 20 0 1

/-- `SPLINE_RESOLUTION` from src/motion.rs. -/
def SPLINE_RESOLUTION : ℕ := 1500

/-- `SplineWaveform` state. -/
structure SplineWaveform where
  resolution : ℕ
  positions : List ℚ
  speeds : List ℚ

/-- The Catmull-Rom tangents of `SplineWaveform::from_points`:
`m_i = (p_((i+1) mod n) - p_((i+n-1) mod n)) * n / 2`. -/
def tangents (points : List ℚ) : List ℚ :=
  let n := points.length
  (List.range n).map fun i =>
    let p_prev := points.getD ((i + n - 1) % n) 0
    let p_next := points.getD ((i + 1) % n) 0
    (p_next - p_prev) * (n : ℚ) / 2

/-- One entry `(positions[i], speeds[i])` of the table built by
`SplineWaveform::from_points` before normalization (src/motion.rs lines
172-215).  `.floor() as usize` on a non-negative `f32` is
`Int.toNat ∘ Int.floor`. -/
def rawEntry (points : List ℚ) (resolution i : ℕ) : ℚ × ℚ :=
  let num_points := points.length
  let x : ℚ := (i : ℚ) / max ((resolution : ℚ) - 1) 1
  let segment_width : ℚ := 1 / (num_points : ℚ)
  let segment_index := min (Int.toNat ⌊x / segment_width⌋) (num_points - 1)
  let p0_index := segment_index
  let p1_index := (segment_index + 1) % num_points
  let p0 := points.getD p0_index 0
  let p1 := points.getD p1_index 0
  let m0 := (tangents points).getD p0_index 0
  let m1 := (tangents points).getD p1_index 0
  let x_k := (p0_index : ℚ) * segment_width
  let u := if segment_width > 0 then (x - x_k) / segment_width else 0
  let u := min (max u 0) 1
  let m0_scaled := m0 * segment_width
  let m1_scaled := m1 * segment_width
  let u2 := u * u
  let u3 := u2 * u
  let h00 := 2 * u3 - 3 * u2 + 1
  let h10 := u3 - 2 * u2 + u
  let h01 := -2 * u3 + 3 * u2
  let h11 := u3 - u2
  let dh00 := 6 * u2 - 6 * u
  let dh10 := 3 * u2 - 4 * u + 1
  let dh01 := -6 * u2 + 6 * u
  let dh11 := 3 * u2 - 2 * u
  let dy_du := dh00 * p0 + dh10 * m0_scaled + dh01 * p1 + dh11 * m1_scaled
  (h00 * p0 + h10 * m0_scaled + h01 * p1 + h11 * m1_scaled,
   if segment_width > 0 then dy_du / segment_width else 0)

/-- The position column of the pre-normalization table. -/
def rawPositions (points : List ℚ) (resolution : ℕ) : List ℚ :=
  (List.range resolution).map fun i => (rawEntry points resolution i).1

/-- The speed column of the pre-normalization table. -/
def rawSpeeds (points : List ℚ) (resolution : ℕ) : List ℚ :=
  (List.range resolution).map fun i => (rawEntry points resolution i).2

/-- The `min_pos` accumulation of `SplineWaveform::from_points`: a fold of
`min` over the table, starting from `f32::MAX`. -/
def tableMin (l : List ℚ) : ℚ := l.foldl min f32Max

/-- The `max_pos` accumulation of `SplineWaveform::from_points`: a fold of
`max` over the table, starting from `f32::MIN = -f32::MAX`. -/
def tableMax (l : List ℚ) : ℚ := l.foldl max (-f32Max)

/-- `SplineWaveform::from_points` (src/motion.rs lines 141-240): degenerate
0/1-point cases, tabulation, then normalization of the table to `[0, 1]`
(`min`/`max` accumulated from `f32::MAX`/`f32::MIN`), with the constant-table
fallback to `0.5`/speed `0` when the range is at most `1e-6`. -/
def SplineWaveform.from_points (points : List ℚ) (resolution : ℕ) :
    Except String SplineWaveform :=
  if points.length = 0 then
    .ok ⟨resolution, List.replicate resolution (1 / 2),
         List.replicate resolution 0⟩
  else if points.length = 1 then
    .ok ⟨resolution, List.replicate resolution (points.getD 0 0),
         List.replicate resolution 0⟩
  else
    let positions := rawPositions points resolution
    let speeds := rawSpeeds points resolution
    let min_pos := tableMin positions
    let max_pos := tableMax positions
    let range := max_pos - min_pos
    if range > 1 / 1000000 then
      .ok ⟨resolution, positions.map fun p => (p - min_pos) * (1 / range),
           speeds.map fun s => s * (1 / range)⟩
    else
      .ok ⟨resolution, List.replicate resolution (1 / 2),
           List.replicate resolution 0⟩

/-- `SplineWaveform::evaluate` (src/motion.rs lines 244-273).  The negative
branch of `.floor() as usize` saturates to 0, hence `Int.toNat`. -/
def SplineWaveform.evaluate (w : SplineWaveform)
    (time_offset_seconds bpm : ℚ) : ℚ × ℚ :=
  let freq := bpm / 60
  let cycles := time_offset_seconds * freq
  let x := rustMod1 cycles
  let float_index := x * ((w.resolution : ℚ) - 1)
  let index1 := Int.toNat ⌊float_index⌋
  let index2 := min (index1 + 1) (w.resolution - 1)
  if w.resolution - 1 ≤ index1 then
    (w.positions.getD (w.resolution - 1) 0,
     w.speeds.getD (w.resolution - 1) 0 * freq)
  else
    let t := float_index - (index1 : ℚ)
    let y1 := w.positions.getD index1 0
    let y2 := w.positions.getD index2 0
    let s1 := w.speeds.getD index1 0
    let s2 := w.speeds.getD index2 0
    (y1 + t * (y2 - y1), (s1 + t * (s2 - s1)) * freq)

/-- `SplineWaveform::find_x_for_y`: linear scan for the table index whose
position is closest to the target (strict improvement, so the first best
index wins), starting from `best_index = 0`, `min_diff = f32::MAX`. -/
def SplineWaveform.find_x_for_y (w : SplineWaveform) (y : ℚ) : ℚ :=
  let best := (List.range w.resolution).foldl
    (fun (best : ℕ × ℚ) i =>
      let diff := |w.positions.getD i 0 - y|
      if diff < best.2 then (i, diff) else best)
    (0, f32Max)
  (best.1 : ℚ) / ((w.resolution : ℚ) - 1)

-- ===== Motor controller (src/motion.rs lines 479-756) =====

/-- `MotorControllerConfig` (src/motion.rs lines 758-770). -/
structure MotorControllerConfig where
  bpm : ℚ
  depth : ℚ
  depth_top : Bool
  reversed : Bool
  wave_func : String
  sharpness : ℚ
  spline_points : List ℚ
  paused : Bool
  paused_position : ℚ
deriving DecidableEq

/-- `MotorControllerConfig::default` (src/motion.rs lines 783-797). -/
def MotorControllerConfig.default : MotorControllerConfig where
  bpm := 36
  depth := 1
  depth_top := false
  reversed := false
  wave_func := "sine"
  sharpness := 3 / 10
  spline_points := [0, 1]
  paused := false
  paused_position := 0

/-- The `Box<dyn WaveformGenerator>` held by the controller: one of the three
concrete variants. -/
inductive Waveform
  | sine
  | thrust (w : ThrustWaveform)
  | spline (w : SplineWaveform)

/-- The controller calls `sin`/`asin` through `SineWaveform`; those are
transcendental, so the rational controller model takes the sine variant's two
methods as parameters.  Every controller theorem below is proved uniformly in
this oracle — none of the claims about the controller depend on the actual
values of the sine evaluator. -/
structure SineOracle where
  evaluate : ℚ → ℚ → ℚ × ℚ
  find_x_for_y : ℚ → ℚ

/-- Trait dispatch for `WaveformGenerator::evaluate`. -/
def Waveform.evaluate (o : SineOracle) : Waveform → ℚ → ℚ → ℚ × ℚ
  | .sine, t, bpm => o.evaluate t bpm
  | .thrust w, t, bpm => w.evaluate t bpm
  | .spline w, t, bpm => w.evaluate t bpm

/-- Trait dispatch for `WaveformGenerator::find_x_for_y`. -/
def Waveform.find_x_for_y (o : SineOracle) : Waveform → ℚ → ℚ
  | .sine, y => o.find_x_for_y y
  | .thrust w, y => w.find_x_for_y y
  | .spline w, y => w.find_x_for_y y

/-- The waveform construction `match` that appears identically in
`MotorController::new` and `MotorController::set_config`: unknown
`wave_func` strings and spline construction failures fall back to sine. -/
def makeWaveform (config : MotorControllerConfig) : Waveform :=
  if config.wave_func = "sine" then .sine
  else if config.wave_func = "thrust" then .thrust ⟨config.sharpness⟩
  else if config.wave_func = "spline" then
    match SplineWaveform.from_points config.spline_points SPLINE_RESOLUTION with
    | .ok wf => .spline wf
    | .error _ => .sine
  else .sine

/-- `u32` wrap-around modulus for `config_version`. -/
def U32_MOD : ℕ := 2 ^ 32

/-- `MotorController` state (src/motion.rs lines 479-491).  The motor handle
and `last_cycle` (used only by `cycle()`) are not needed by any claim and are
omitted; `Instant`s are rational seconds. -/
structure MotorController where
  waveform : Waveform
  shaper : Shaper
  position_gen : PositionGenerator
  config : MotorControllerConfig
  config_version : ℕ
  t0 : ℚ
  current_paused_y : ℚ

/-- `MotorController::new` (src/motion.rs lines 494-531), with `now` the
construction instant. -/
def MotorController.new (config : MotorControllerConfig) (now : ℚ) :
    MotorController where
  waveform := makeWaveform config
  shaper := Shaper.new config.depth
    (if config.depth_top then .Top else .Bottom) config.reversed
  position_gen := ⟨0, 0⟩
  config := config
  config_version := 0
  t0 := now
  current_paused_y := config.paused_position

/-- `MotorController::set_config` (src/motion.rs lines 583-660).  The source
samples `Instant::now()` a handful of times during the call; the call is
modelled as happening at the single instant `now`.  `config_version += 1` is
`u32` addition, i.e. wrap-around at `2^32`.  The function always reaches the
final `Ok(())`. -/
def MotorController.set_config (o : SineOracle) (mc : MotorController)
    (config : MotorControllerConfig) (now : ℚ) :
    Except String MotorController :=
  let last_y_wave :=
    if mc.config.paused then mc.current_paused_y
    else (Waveform.evaluate o mc.waveform (now - mc.t0) mc.config.bpm).1
  let waveform :=
    if (mc.config.wave_func ≠ config.wave_func ∨
        mc.config.spline_points ≠ config.spline_points) ∨
       |mc.config.sharpness - config.sharpness| > 1 / 1000 then
      makeWaveform config
    else mc.waveform
  let direction := if config.depth_top then DepthDirection.Top
                   else DepthDirection.Bottom
  let shaper := mc.shaper.set_params config.depth direction config.reversed
  let t0 :=
    if ((mc.config.wave_func ≠ config.wave_func ∨
         mc.config.spline_points ≠ config.spline_points) ∨
        |mc.config.sharpness - config.sharpness| > 1 / 1000) ∧
       ¬config.paused then
      now - Waveform.find_x_for_y o waveform last_y_wave * 60 / config.bpm
    else if ¬config.paused ∧ mc.config.paused then
      now - Waveform.find_x_for_y o waveform mc.current_paused_y * 60
        / config.bpm
    else if |mc.config.bpm - config.bpm| > 1 / 1000 ∧ ¬config.paused then
      let elapsed := now - mc.t0
      let current_phase := rustMod1 (elapsed * mc.config.bpm / 60)
      now - current_phase * 60 / config.bpm
    else mc.t0
  .ok { waveform := waveform
        shaper := shaper
        position_gen := mc.position_gen
        config := config
        config_version := (mc.config_version + 1) % U32_MOD
        t0 := t0
        current_paused_y := mc.current_paused_y }

/-- One *accepted* `set_config` call: on `Ok` the new state is installed (the
error branch, which is in fact unreachable, would leave the state alone). -/
def MotorController.applyConfig (o : SineOracle) (mc : MotorController)
    (config : MotorControllerConfig) (now : ℚ) : MotorController :=
  match mc.set_config o config now with
  | .ok mc' => mc'
  | .error _ => mc

/-- A sequence of `set_config` calls, each with its call instant. -/
def MotorController.applyConfigs (o : SineOracle) (mc : MotorController) :
    List (MotorControllerConfig × ℚ) → MotorController
  | [] => mc
  | (c, now) :: rest => (mc.applyConfig o c now).applyConfigs o rest

/-- A do-nothing sine oracle, used to instantiate concrete controller
states. -/
def oracle0 : SineOracle := ⟨fun _ _ => (0, 0), fun _ => 0⟩

/-- A freshly constructed controller with the default configuration. -/
def mc0 : MotorController := MotorController.new MotorControllerConfig.default 0

/-- The default configuration with the bpm doubled (36 → 72). -/
def cfgDouble : MotorControllerConfig :=
  { MotorControllerConfig.default with bpm := 72 }

-- ===== Helper lemmas =====

theorem exists_ok_ite {α ε : Type} (c : Prop) [Decidable c] (a b : α) :
    ∃ w, (if c then Except.ok a else Except.ok b) = (Except.ok w : Except ε α) := by
  split_ifs <;> exact ⟨_, rfl⟩

theorem Shaper.shape_fst_of_not_transitioning (s : Shaper)
    (y_in speed_in dt : ℚ) (h : s.transitioning = false) :
    (s.shape y_in speed_in dt).1 = s := by
  cases hd : s.direction <;> simp [Shaper.shape, h, hd]

-- ===== C2: shaper round-trip =====

/-- C2.  For every shaper state that is not transitioning, with
`current_depth > 0.02` and `|1 - 2·current_reversal| > 0.02`, and every
`y ∈ [0,1]`: `unshape` applied to the y-component of `shape(y, ·, 0)` returns
`some` value equal to `y` within 1e-3 (in exact arithmetic the round trip is
exact). -/
theorem c2_shaper_round_trip (s : Shaper) (y speed_in : ℚ)
    (ht : s.transitioning = false)
    (hd : 1 / 50 < s.current_depth)
    (hr : 1 / 50 < |1 - 2 * s.current_reversal|)
    (hy0 : 0 ≤ y) (hy1 : y ≤ 1) :
    ∃ v, ((s.shape y speed_in 0).1).unshape (s.shape y speed_in 0).2.1
          = some v ∧ |v - y| ≤ 1 / 1000 := by
  refine ⟨y, ?_, by simp⟩
  rw [Shaper.shape_fst_of_not_transitioning s y speed_in 0 ht]
  have hd0 : s.current_depth ≠ 0 := by positivity
  have hden0 : 1 - 2 * s.current_reversal ≠ 0 := by
    intro h
    rw [h] at hr
    norm_num at hr
  have hdlt : ¬(s.current_depth < TRANSITION_THRESHOLD) := by
    rw [TRANSITION_THRESHOLD]; push_neg; linarith
  have hrlt : ¬(|1 - 2 * s.current_reversal| < TRANSITION_THRESHOLD) := by
    rw [TRANSITION_THRESHOLD]; push_neg; linarith
  have hval : ∀ z : ℚ, z = y * (1 - s.current_reversal) +
      (1 - y) * s.current_reversal →
      (z - s.current_reversal) / (1 - 2 * s.current_reversal) = y := by
    intro z hz
    rw [hz]
    field_simp
    ring
  cases hdir : s.direction with
  | Top =>
    simp only [Shaper.shape, Shaper.unshape, ht, hdir, if_neg hdlt,
      if_neg hrlt, Bool.false_eq_true, if_false]
    rw [mul_div_cancel_right₀ _ hd0, hval _ rfl]
    rw [max_eq_left hy0, min_eq_left hy1]
  | Bottom =>
    simp only [Shaper.shape, Shaper.unshape, ht, hdir, if_neg hdlt,
      if_neg hrlt, Bool.false_eq_true, if_false]
    rw [add_sub_cancel_right, mul_div_cancel_right₀ _ hd0, hval _ rfl]
    rw [max_eq_left hy0, min_eq_left hy1]

/-- C2 witness: full-depth, non-reversed, settled shaper at `y = 1/2`. -/
theorem c2_witness :
    (⟨1, 1, .Top, false, 0, false⟩ : Shaper).transitioning = false ∧
    (1 : ℚ) / 50 < (⟨1, 1, .Top, false, 0, false⟩ : Shaper).current_depth ∧
    ∃ v, ((Shaper.shape ⟨1, 1, .Top, false, 0, false⟩ (1/2) 0 0).1).unshape
          (Shaper.shape ⟨1, 1, .Top, false, 0, false⟩ (1/2) 0 0).2.1
          = some v ∧ |v - 1/2| ≤ 1 / 1000 :=
  ⟨rfl, by norm_num,
   c2_shaper_round_trip ⟨1, 1, .Top, false, 0, false⟩ (1/2) 0 rfl
     (by norm_num) (by norm_num) (by norm_num) (by norm_num)⟩

-- ===== C4: position generator rounding =====

/-- C4 counterexample: the claim says the position is *rounded to the
nearest integer*, but `as i32` truncates toward zero.  With
`pos_min = 0`, `pos_max = 1`, `y = 0.9` the code produces position `0`
while rounding to the nearest integer gives `1`. -/
theorem c4_counterexample :
    (PositionGenerator.generate ⟨0, 1⟩ (9 / 10) 0).1 = 0 ∧
    round ((9 : ℚ) / 10 * ((1 : ℤ) - (0 : ℤ) : ℤ) + ((0 : ℤ) : ℚ)) = 1 ∧
    (0 : ℤ) ≠ 1 := by
  refine ⟨?_, by norm_num [round_eq], by norm_num⟩
  show ratTrunc ((9 : ℚ) / 10 * ((1 : ℤ) - (0 : ℤ) : ℤ) + ((0 : ℤ) : ℚ)) = 0
  rw [ratTrunc, if_pos (by norm_num)]
  norm_num

/-- C4 amended.  `generate(y, ẏ)` returns
`(trunc(y·(pos_max−pos_min)+pos_min), ẏ·(pos_max−pos_min))` where the
position component is truncated toward zero (floor for non-negative values,
ceiling for negative ones), not rounded to nearest. -/
theorem c4_generate_truncates (p : PositionGenerator) (y speed_y : ℚ) :
    p.generate y speed_y =
      ((if 0 ≤ y * ((p.pos_max - p.pos_min : ℤ) : ℚ) + (p.pos_min : ℚ)
        then ⌊y * ((p.pos_max - p.pos_min : ℤ) : ℚ) + (p.pos_min : ℚ)⌋
        else ⌈y * ((p.pos_max - p.pos_min : ℤ) : ℚ) + (p.pos_min : ℚ)⌉),
       speed_y * ((p.pos_max - p.pos_min : ℤ) : ℚ)) := rfl

-- ===== C5: shaper transition invariant =====

/-- C5 counterexample: `Shaper::new` initializes `current_* = target_*` but
sets `transitioning = true`, so immediately after construction (a reachable
state) the claimed invariant `current = target ⇒ ¬transitioning` fails. -/
theorem c5_counterexample :
    (Shaper.new 1 .Top false).current_depth
        = (Shaper.new 1 .Top false).target_depth ∧
    (Shaper.new 1 .Top false).current_reversal
        = (if (Shaper.new 1 .Top false).target_reversed then 1 else 0) ∧
    (Shaper.new 1 .Top false).transitioning = true :=
  ⟨rfl, rfl, rfl⟩

/-- C5 amended.  The invariant does not hold of every reachable state
(`Shaper::new` and the slew clamp both produce `current = target` with
`transitioning` still set); what holds is that any `shape` call made in a
state with `current_depth = target_depth` and `current_reversal` at its
target leaves `transitioning = false` (and the current values unchanged). -/
theorem c5_shape_clears_transitioning (s : Shaper) (y_in speed_in dt : ℚ)
    (hdep : s.current_depth = s.target_depth)
    (hrev : s.current_reversal = (if s.target_reversed then 1 else 0)) :
    (s.shape y_in speed_in dt).1.transitioning = false ∧
    (s.shape y_in speed_in dt).1.current_depth = s.current_depth ∧
    (s.shape y_in speed_in dt).1.current_reversal = s.current_reversal := by
  cases ht : s.transitioning with
  | false =>
    rw [Shaper.shape_fst_of_not_transitioning s y_in speed_in dt ht]
    exact ⟨ht, rfl, rfl⟩
  | true =>
    cases hdir : s.direction <;>
      simp [Shaper.shape, ht, hdir, ← hdep, ← hrev, TRANSITION_THRESHOLD]

/-- C5 witness: a settled-but-flagged shaper; one `shape` call clears the
flag. -/
theorem c5_witness :
    (⟨1, 1, .Top, false, 0, true⟩ : Shaper).current_depth
        = (⟨1, 1, .Top, false, 0, true⟩ : Shaper).target_depth ∧
    (Shaper.shape ⟨1, 1, .Top, false, 0, true⟩ 0 0 0).1.transitioning
        = false :=
  ⟨rfl,
   (c5_shape_clears_transitioning ⟨1, 1, .Top, false, 0, true⟩ 0 0 0
     rfl rfl).1⟩

-- ===== C6: homing math =====

/-- C6.  Homing sets `pos_min` to the stable reading after commanding `-10^6`
plus 3000 and `pos_max` to the stable reading after commanding `+10^6` minus
3000, then commands the mid-range position; with stable readings `-5000` and
`+5000` this gives `pos_min = -2000`, `pos_max = 2000`, and
`generate(0.5, 0)` yields position `0`. -/
theorem c6_homing_math :
    (∀ m : FakeMotor,
      homing m = ⟨m.stable (-1000000) + 3000, m.stable 1000000 - 3000,
        Int.tdiv ((m.stable (-1000000) + 3000) + (m.stable 1000000 - 3000))
          2⟩) ∧
    homing ⟨fun c => if c < 0 then -5000 else 5000⟩ = ⟨-2000, 2000, 0⟩ ∧
    PositionGenerator.generate ⟨-2000, 2000⟩ (1 / 2) 0 = (0, 0) := by
  refine ⟨fun m => rfl, by decide, ?_⟩
  show (ratTrunc ((1 : ℚ) / 2 * ((2000 : ℤ) - (-2000 : ℤ) : ℤ) +
      ((-2000 : ℤ) : ℚ)), (0 : ℚ) * _) = _
  rw [ratTrunc, if_pos (by norm_num)]
  norm_num

-- ===== C8: Modbus operation timeouts =====

/-- C8 counterexample: baud rate 115201 is *not* rejected — the source arm
`115200 | 115201` accepts it (here with `TICK_RATE_HZ = 100`, yielding
`100 / 200 = 0` ticks). -/
theorem c8_counterexample :
    get_operation_timeout 100 115201 = .ok 0 := rfl

/-- C8 amended.  The per-operation timeout is `TICK_RATE_HZ/10` ticks (1/10 s)
for 9600 baud, `/20` for 19200, `/40` for 38400, and `/200` for *both* 115200
and 115201; every other baud rate is rejected with an error. -/
theorem c8_timeouts (t b : ℕ) :
    (b = 9600 → get_operation_timeout t b = .ok (t / 10)) ∧
    (b = 19200 → get_operation_timeout t b = .ok (t / 20)) ∧
    (b = 38400 → get_operation_timeout t b = .ok (t / 40)) ∧
    ((b = 115200 ∨ b = 115201) →
      get_operation_timeout t b = .ok (t / 200)) ∧
    (b ≠ 9600 → b ≠ 19200 → b ≠ 38400 → b ≠ 115200 → b ≠ 115201 →
      get_operation_timeout t b = .error ("Invalid baud rate")) := by
  refine ⟨?_, ?_, ?_, ?_, ?_⟩
  · rintro rfl; rfl
  · rintro rfl; rfl
  · rintro rfl; rfl
  · rintro (rfl | rfl) <;> rfl
  · intro h1 h2 h3 h4 h5
    unfold get_operation_timeout
    split <;> simp_all

/-- C8 witness: the four accepted baud rates and one rejected one, at
`TICK_RATE_HZ = 100`. -/
theorem c8_witness :
    get_operation_timeout 100 9600 = .ok (100 / 10) ∧
    get_operation_timeout 100 19200 = .ok (100 / 20) ∧
    get_operation_timeout 100 38400 = .ok (100 / 40) ∧
    get_operation_timeout 100 115200 = .ok (100 / 200) ∧
    get_operation_timeout 100 300 = .error ("Invalid baud rate") :=
  ⟨(c8_timeouts 100 9600).1 rfl, (c8_timeouts 100 19200).2.1 rfl,
   (c8_timeouts 100 38400).2.2.1 rfl,
   (c8_timeouts 100 115200).2.2.2.1 (Or.inl rfl),
   (c8_timeouts 100 300).2.2.2.2 (by decide) (by decide) (by decide)
     (by decide) (by decide)⟩

-- ===== C10: set_config is infallible =====

/-- C10.  `SplineWaveform::from_points` returns `Ok` on every input
(including empty and single-point lists), and `set_config` returns `Ok` for
every configuration and controller state: the error branch of its `Result`
is never taken. -/
theorem c10_set_config_infallible :
    (∀ (points : List ℚ) (resolution : ℕ), ∃ w,
      SplineWaveform.from_points points resolution = .ok w) ∧
    (∀ (o : SineOracle) (mc : MotorController)
       (config : MotorControllerConfig) (now : ℚ), ∃ mc',
      mc.set_config o config now = .ok mc') := by
  constructor
  · intro points resolution
    unfold SplineWaveform.from_points
    split_ifs with h1 h2
    · exact ⟨_, rfl⟩
    · exact ⟨_, rfl⟩
    · exact exists_ok_ite _ _ _
  · intro o mc config now
    exact ⟨_, rfl⟩

-- ===== C9: config_version =====

theorem applyConfig_config_version (o : SineOracle) (mc : MotorController)
    (config : MotorControllerConfig) (now : ℚ) :
    (mc.applyConfig o config now).config_version
      = (mc.config_version + 1) % U32_MOD := rfl

theorem applyConfigs_config_version (o : SineOracle)
    (L : List (MotorControllerConfig × ℚ)) :
    ∀ mc : MotorController, mc.config_version < U32_MOD →
      (mc.applyConfigs o L).config_version
        = (mc.config_version + L.length) % U32_MOD := by
  induction L with
  | nil =>
    intro mc h
    simp [MotorController.applyConfigs, Nat.mod_eq_of_lt h]
  | cons head tail ih =>
    intro mc h
    obtain ⟨c, now⟩ := head
    show ((mc.applyConfig o c now).applyConfigs o tail).config_version = _
    rw [ih _ (by rw [applyConfig_config_version]; exact Nat.mod_lt _ (by norm_num [U32_MOD]))]
    rw [applyConfig_config_version, Nat.mod_add_mod]
    congr 1
    simp [List.length_cons]
    omega

/-- C9 counterexample: `config_version` is a `u32`, so `+= 1` wraps: after
exactly `2^32` accepted `set_config` calls starting from version 0 the
version is 0 again — it has not "increased by exactly N", and on the last
call it decreased. -/
theorem c9_counterexample :
    mc0.config_version = 0 ∧
    (mc0.applyConfigs oracle0
        (List.replicate U32_MOD (MotorControllerConfig.default, 0))).config_version
      = 0 ∧
    (0 : ℕ) ≠ 0 + U32_MOD := by
  refine ⟨rfl, ?_, by norm_num [U32_MOD]⟩
  rw [applyConfigs_config_version oracle0 _ mc0
    (show (0 : ℕ) < U32_MOD by norm_num [U32_MOD])]
  rw [List.length_replicate]
  show (0 + U32_MOD) % U32_MOD = 0
  rw [Nat.zero_add, Nat.mod_self]

/-- C9 amended.  Every `set_config` is accepted and increments
`config_version` modulo `2^32` (it is a `u32`): after `N` accepted calls the
version is `(v₀ + N) mod 2^32`, so it increases by exactly `N` — and in
particular never decreases — as long as `v₀ + N < 2^32`; at the `2^32`-th
increment it wraps to 0. -/
theorem c9_version_counter (o : SineOracle) (mc : MotorController)
    (L : List (MotorControllerConfig × ℚ))
    (h : mc.config_version < U32_MOD) :
    (mc.applyConfigs o L).config_version
        = (mc.config_version + L.length) % U32_MOD ∧
    (mc.config_version + L.length < U32_MOD →
      (mc.applyConfigs o L).config_version
        = mc.config_version + L.length) := by
  refine ⟨applyConfigs_config_version o L mc h, fun hlt => ?_⟩
  rw [applyConfigs_config_version o L mc h, Nat.mod_eq_of_lt hlt]

/-- C9 witness: one accepted call from a fresh controller bumps the version
from 0 to 1. -/
theorem c9_witness :
    mc0.config_version < U32_MOD ∧
    (mc0.applyConfigs oracle0 [(MotorControllerConfig.default, 0)]).config_version
      = mc0.config_version + 1 :=
  ⟨show (0 : ℕ) < U32_MOD by norm_num [U32_MOD],
   (c9_version_counter oracle0 mc0 [(MotorControllerConfig.default, 0)]
      (show (0 : ℕ) < U32_MOD by norm_num [U32_MOD])).2
      (show 0 + 1 < U32_MOD by norm_num [U32_MOD])⟩

-- ===== C1: BPM change preserves phase =====

/-- C1.  When `set_config` changes only the bpm (waveform identity and
sharpness unchanged, both old and new configs running), the phase anchor `t0`
is re-set to `now - phase·60/new_bpm` where `phase` is the phase computed
with the old bpm; consequently the phase computed with the new bpm
immediately after the call (third conjunct) — and even the un-reduced cycle
count (second conjunct), on which every waveform's `y` depends — equals the
phase computed with the old bpm immediately before it. -/
theorem c1_bpm_change_preserves_phase (o : SineOracle)
    (mc : MotorController) (config : MotorControllerConfig) (now : ℚ)
    (hwave : mc.config.wave_func = config.wave_func)
    (hpoints : mc.config.spline_points = config.spline_points)
    (hsharp : |mc.config.sharpness - config.sharpness| ≤ 1 / 1000)
    (hbpm : |mc.config.bpm - config.bpm| > 1 / 1000)
    (hp_old : mc.config.paused = false)
    (hp_new : config.paused = false)
    (hnow : mc.t0 ≤ now)
    (hbpm_old : 0 ≤ mc.config.bpm)
    (hbpm_new : 0 < config.bpm) :
    ∃ mc', mc.set_config o config now = .ok mc' ∧
      mc'.t0 = now - rustMod1 ((now - mc.t0) * mc.config.bpm / 60) * 60
                / config.bpm ∧
      (now - mc'.t0) * config.bpm / 60
        = rustMod1 ((now - mc.t0) * mc.config.bpm / 60) ∧
      rustMod1 ((now - mc'.t0) * config.bpm / 60)
        = rustMod1 ((now - mc.t0) * mc.config.bpm / 60) := by
  have hC1 : ¬(((mc.config.wave_func ≠ config.wave_func ∨
        mc.config.spline_points ≠ config.spline_points) ∨
       |mc.config.sharpness - config.sharpness| > 1 / 1000) ∧
      ¬config.paused) := by
    rintro ⟨(h | h) | h, -⟩
    · exact h hwave
    · exact h hpoints
    · exact absurd hsharp (not_le.2 h)
  have hC2 : ¬(¬config.paused ∧ mc.config.paused) := by
    rintro ⟨-, h⟩
    rw [hp_old] at h
    exact Bool.false_ne_true h
  have hC3 : |mc.config.bpm - config.bpm| > 1 / 1000 ∧ ¬config.paused := by
    refine ⟨hbpm, ?_⟩
    simp [hp_new]
  have hφ : 0 ≤ (now - mc.t0) * mc.config.bpm / 60 :=
    div_nonneg (mul_nonneg (sub_nonneg.2 hnow) hbpm_old) (by norm_num)
  have hkey : (now - (now - rustMod1 ((now - mc.t0) * mc.config.bpm / 60)
      * 60 / config.bpm)) * config.bpm / 60
      = rustMod1 ((now - mc.t0) * mc.config.bpm / 60) := by
    field_simp
  have hkey2 : rustMod1 ((now - (now
      - rustMod1 ((now - mc.t0) * mc.config.bpm / 60) * 60 / config.bpm))
      * config.bpm / 60)
      = rustMod1 ((now - mc.t0) * mc.config.bpm / 60) := by
    rw [hkey]
    exact rustMod1_idem hφ
  unfold MotorController.set_config
  simp only []
  rw [if_neg hC1, if_neg hC2, if_pos hC3]
  exact ⟨_, rfl, rfl, hkey, hkey2⟩

/-- C1 witness: doubling the bpm of a fresh default controller at `now = 1`
preserves the phase. -/
theorem c1_witness :
    |mc0.config.bpm - cfgDouble.bpm| > 1 / 1000 ∧
    mc0.config.paused = false ∧
    (∃ mc', mc0.set_config oracle0 cfgDouble 1 = .ok mc' ∧
      mc'.t0 = 1 - rustMod1 ((1 - mc0.t0) * mc0.config.bpm / 60) * 60
                / cfgDouble.bpm ∧
      (1 - mc'.t0) * cfgDouble.bpm / 60
        = rustMod1 ((1 - mc0.t0) * mc0.config.bpm / 60) ∧
      rustMod1 ((1 - mc'.t0) * cfgDouble.bpm / 60)
        = rustMod1 ((1 - mc0.t0) * mc0.config.bpm / 60)) :=
  ⟨show |(36 : ℚ) - 72| > 1 / 1000 by norm_num, rfl,
   c1_bpm_change_preserves_phase oracle0 mc0 cfgDouble 1 rfl rfl
     (show |(3 : ℚ) / 10 - 3 / 10| ≤ 1 / 1000 by norm_num)
     (show |(36 : ℚ) - 72| > 1 / 1000 by norm_num) rfl rfl
     (show (0 : ℚ) ≤ 1 by norm_num)
     (show (0 : ℚ) ≤ 36 by norm_num)
     (show (0 : ℚ) < 72 by norm_num)⟩

-- ===== C3: waveform inverse round-trip =====

theorem rustMod1_eq_self {x : ℚ} (h0 : 0 ≤ x) (h1 : x < 1) :
    rustMod1 x = x := by
  rw [rustMod1_eq_fract h0]
  exact Int.fract_eq_self.2 ⟨h0, h1⟩

theorem smootherstep_ge_half (t : ℚ) (h : 1 / 2 ≤ t) :
    1 / 8 ≤ smootherstep t := by
  unfold smootherstep
  simp only []
  set u := min (max t 0) 1 with hu
  have hu0 : 1 / 2 ≤ u := by
    rw [hu, max_eq_left (by linarith : (0 : ℚ) ≤ t)]
    exact le_min h (by norm_num)
  have hu1 : u ≤ 1 := min_le_right _ _
  nlinarith [mul_nonneg (sub_nonneg.2 hu0) (sub_nonneg.2 hu1),
    sq_nonneg (u - 1 / 2), sq_nonneg (1 - u),
    mul_nonneg (mul_nonneg (sub_nonneg.2 hu0) (sub_nonneg.2 hu0))
      (sub_nonneg.2 hu0),
    mul_nonneg (mul_nonneg (sub_nonneg.2 hu0) (sub_nonneg.2 hu0))
      (sub_nonneg.2 hu1),
    mul_nonneg (mul_nonneg (sub_nonneg.2 hu0) (sub_nonneg.2 hu1))
      (sub_nonneg.2 hu1)]

/-- For the default thrust sharpness 0.3, any phase in `[3/4, 1)` is deep in
the fall and the waveform output is at most `7/8`. -/
theorem thrust_y_le_7_8 (t bpm x : ℚ) (harg : t * (bpm / 60) = x)
    (hx0 : 3 / 4 ≤ x) (hx1 : x < 1) :
    (ThrustWaveform.evaluate ⟨3 / 10⟩ t bpm).1 ≤ 7 / 8 := by
  unfold ThrustWaveform.evaluate
  simp only []
  rw [harg, rustMod1_eq_self (by linarith) hx1,
    show min (max ((3 : ℚ) / 10) (1 / 100)) (99 / 100) = 3 / 10 by norm_num,
    if_neg (by linarith : ¬(x < 3 / 10))]
  have ht : 1 / 2 ≤ (x - 3 / 10) / (1 - 3 / 10) := by
    rw [le_div_iff₀ (by norm_num : (0 : ℚ) < 1 - 3 / 10)]
    linarith
  have hs := smootherstep_ge_half _ ht
  show 1 - smootherstep ((x - 3 / 10) / (1 - 3 / 10)) ≤ 7 / 8
  linarith

/-- Once the bisection bracket is `[l, 1]` with `l ≥ 1/2`, every midpoint
lands in `[3/4, 1)` where the thrust output is at most `7/8 < 0.9 - 0.001`,
so the loop for target `0.9` always moves `left` and the result stays in
`[3/4, 1)`. -/
theorem findLoop_bracket (n : ℕ) :
    ∀ l : ℚ, 1 / 2 ≤ l → l < 1 →
      3 / 4 ≤ ThrustWaveform.findLoop ⟨3 / 10⟩ (9 / 10) n l 1 ∧
      ThrustWaveform.findLoop ⟨3 / 10⟩ (9 / 10) n l 1 < 1 := by
  induction n with
  | zero =>
    intro l h0 h1
    constructor
    · show 3 / 4 ≤ (l + 1) / 2
      linarith
    · show (l + 1) / 2 < 1
      linarith
  | succ n ih =>
    intro l h0 h1
    have hmid0 : 3 / 4 ≤ (l + 1) / 2 := by linarith
    have hmid1 : (l + 1) / 2 < 1 := by linarith
    have hy := thrust_y_le_7_8 ((l + 1) / 2 * 60) 1 ((l + 1) / 2)
      (by ring) hmid0 hmid1
    rw [ThrustWaveform.findLoop]
    have hne : ¬(|(ThrustWaveform.evaluate ⟨3 / 10⟩ ((l + 1) / 2 * 60) 1).1
        - 9 / 10| < 1 / 1000) := by
      intro habs
      have hlow := (abs_lt.1 habs).1
      linarith
    have hlt : (ThrustWaveform.evaluate ⟨3 / 10⟩ ((l + 1) / 2 * 60) 1).1
        < 9 / 10 := by linarith
    rw [if_neg hne, if_pos hlt]
    exact ih _ (by linarith) hmid1

/-- The bisection for target `y = 0.9` at sharpness 0.3: the first midpoint
`1/2` evaluates to `14375/16807 ≈ 0.855 < 0.9`, the bracket becomes
`[1/2, 1]`, and from then on the result is trapped in `[3/4, 1)` — nowhere
near the rising-branch solution. -/
theorem find_x_thrust_910 :
    3 / 4 ≤ ThrustWaveform.find_x_for_y ⟨3 / 10⟩ (9 / 10) ∧
    ThrustWaveform.find_x_for_y ⟨3 / 10⟩ (9 / 10) < 1 := by
  unfold ThrustWaveform.find_x_for_y
  rw [show min (max ((9 : ℚ) / 10) 0) 1 = 9 / 10 by norm_num]
  have hmidy : (ThrustWaveform.evaluate ⟨3 / 10⟩ ((0 + 1) / 2 * 60) 1).1
      = 14375 / 16807 := by
    unfold ThrustWaveform.evaluate
    simp only []
    rw [show ((0 : ℚ) + 1) / 2 * 60 * ((1 : ℚ) / 60) = 1 / 2 by ring,
      rustMod1_eq_self (by norm_num) (by norm_num),
      show min (max ((3 : ℚ) / 10) (1 / 100)) (99 / 100) = 3 / 10 by norm_num,
      if_neg (by norm_num : ¬((1 : ℚ) / 2 < 3 / 10))]
    show 1 - smootherstep ((1 / 2 - 3 / 10) / (1 - 3 / 10)) = 14375 / 16807
    unfold smootherstep
    simp only []
    norm_num
  rw [show (20 : ℕ) = 19 + 1 from rfl, ThrustWaveform.findLoop]
  rw [hmidy, if_neg (by rw [abs_lt]; rintro ⟨h1, -⟩; norm_num at h1),
    if_pos (by norm_num),
    show ((0 : ℚ) + 1) / 2 = 1 / 2 by norm_num]
  exact findLoop_bracket 19 (1 / 2) (by norm_num) (by norm_num)

/-- C3 counterexample: for the thrust waveform with (default) sharpness 0.3
and `y = 0.9` (bpm 60), the bisection converges to the end of the falling
edge, where the waveform output is at most `7/8`, so the round-trip error
exceeds 0.01 (it is in fact about 0.9). -/
theorem c3_counterexample :
    ¬(|(ThrustWaveform.evaluate ⟨3 / 10⟩
        (ThrustWaveform.find_x_for_y ⟨3 / 10⟩ (9 / 10) * 60 / 60) 60).1
        - 9 / 10| ≤ 1 / 100) := by
  obtain ⟨hx0, hx1⟩ := find_x_thrust_910
  have hy := thrust_y_le_7_8
    (ThrustWaveform.find_x_for_y ⟨3 / 10⟩ (9 / 10) * 60 / 60) 60
    (ThrustWaveform.find_x_for_y ⟨3 / 10⟩ (9 / 10)) (by ring) hx0 hx1
  intro habs
  have hlow := (abs_le.1 habs).1
  linarith

/-- C3 amended.  The sine round-trip holds (exactly): for every `y ∈ [0, 1]`
and `bpm > 0`, `evaluate(find_x_for_y(y)·60/bpm, bpm).y = y`, so the error is
within 0.01.  The thrust inverse does run a 20-iteration bisection with
tolerance 0.001 on `y`, but since the thrust waveform is not monotone the
0.01 round-trip bound fails for it at some targets (see the
counterexample). -/
theorem c3_sine_round_trip (y bpm : ℝ) (hy0 : 0 ≤ y) (hy1 : y ≤ 1)
    (hbpm : 0 < bpm) :
    |(SineWaveform.evaluate (SineWaveform.find_x_for_y y * 60 / bpm)
        bpm).1 - y| ≤ 1 / 100 := by
  unfold SineWaveform.evaluate SineWaveform.find_x_for_y
  simp only []
  have hc : min (max ((y - 1 / 2) * 2) (-1)) 1 = 2 * y - 1 := by
    rw [max_eq_left (by linarith), min_eq_left (by linarith)]
    ring
  rw [hc]
  have hsin : Real.sin (Real.arcsin (2 * y - 1)) = 2 * y - 1 :=
    Real.sin_arcsin (by linarith) (by linarith)
  split_ifs with hx
  · have harg : 2 * Real.pi *
        ((Real.arcsin (2 * y - 1) / (2 * Real.pi) + 1) * 60 / bpm) *
        (bpm / 60) = Real.arcsin (2 * y - 1) + 2 * Real.pi := by
      field_simp
      ring
    rw [harg, Real.sin_add_two_pi, hsin,
      show (2 * y - 1) / 2 + 1 / 2 - y = 0 by ring]
    norm_num
  · have harg : 2 * Real.pi *
        (Real.arcsin (2 * y - 1) / (2 * Real.pi) * 60 / bpm) *
        (bpm / 60) = Real.arcsin (2 * y - 1) := by
      field_simp
      ring
    rw [harg, hsin, show (2 * y - 1) / 2 + 1 / 2 - y = 0 by ring]
    norm_num

/-- C3 witness: sine round-trip at `y = 1/2`, `bpm = 60`. -/
theorem c3_witness :
    (0 : ℝ) ≤ 1 / 2 ∧ (1 / 2 : ℝ) ≤ 1 ∧ (0 : ℝ) < 60 ∧
    |(SineWaveform.evaluate (SineWaveform.find_x_for_y (1 / 2) * 60 / 60)
        60).1 - 1 / 2| ≤ 1 / 100 :=
  ⟨by norm_num, by norm_num, by norm_num,
   c3_sine_round_trip (1 / 2) 60 (by norm_num) (by norm_num) (by norm_num)⟩

-- ===== C7: spline table normalization =====

theorem foldl_min_le_init {α : Type} [LinearOrder α] (l : List α) (a : α) :
    l.foldl min a ≤ a := by
  induction l generalizing a with
  | nil => exact le_rfl
  | cons x t ih => exact le_trans (ih (min a x)) (min_le_left a x)

theorem foldl_min_le_mem {α : Type} [LinearOrder α] {x : α} {l : List α}
    (h : x ∈ l) (a : α) : l.foldl min a ≤ x := by
  induction l generalizing a with
  | nil => cases h
  | cons y t ih =>
    rcases List.mem_cons.1 h with rfl | h'
    · exact le_trans (foldl_min_le_init t (min a x)) (min_le_right a x)
    · exact ih h' (min a y)

theorem le_foldl_min {α : Type} [LinearOrder α] {c : α} {l : List α}
    (h : ∀ x ∈ l, c ≤ x) : ∀ {a : α}, c ≤ a → c ≤ l.foldl min a := by
  induction l with
  | nil => exact fun ha => ha
  | cons y t ih =>
    intro a ha
    exact ih (fun x hx => h x (List.mem_cons_of_mem y hx))
      (le_min ha (h y (List.mem_cons_self y t)))

theorem foldl_min_eq {α : Type} [LinearOrder α] {v : α} {l : List α} {a : α}
    (hv : v ∈ l) (hle : ∀ x ∈ l, v ≤ x) (ha : v ≤ a) : l.foldl min a = v :=
  le_antisymm (foldl_min_le_mem hv a)
    (le_foldl_min hle ha)

theorem foldl_min_mem {α : Type} [LinearOrder α] (l : List α) :
    ∀ a : α, l.foldl min a = a ∨ l.foldl min a ∈ l := by
  induction l with
  | nil => exact fun a => Or.inl rfl
  | cons y t ih =>
    intro a
    rcases ih (min a y) with h | h
    · rcases min_choice a y with h' | h'
      · exact Or.inl (h.trans h')
      · exact Or.inr (by rw [List.foldl_cons, h, h']; exact List.mem_cons_self y t)
    · exact Or.inr (List.mem_cons_of_mem y h)

theorem foldl_max_ge_init {α : Type} [LinearOrder α] (l : List α) (a : α) :
    a ≤ l.foldl max a := by
  induction l generalizing a with
  | nil => exact le_rfl
  | cons x t ih => exact le_trans (le_max_left a x) (ih (max a x))

theorem foldl_max_ge_mem {α : Type} [LinearOrder α] {x : α} {l : List α}
    (h : x ∈ l) (a : α) : x ≤ l.foldl max a := by
  induction l generalizing a with
  | nil => cases h
  | cons y t ih =>
    rcases List.mem_cons.1 h with rfl | h'
    · exact le_trans (le_max_right a x) (foldl_max_ge_init t (max a x))
    · exact ih h' (max a y)

theorem foldl_max_le {α : Type} [LinearOrder α] {c : α} {l : List α}
    (h : ∀ x ∈ l, x ≤ c) : ∀ {a : α}, a ≤ c → l.foldl max a ≤ c := by
  induction l with
  | nil => exact fun ha => ha
  | cons y t ih =>
    intro a ha
    exact ih (fun x hx => h x (List.mem_cons_of_mem y hx))
      (max_le ha (h y (List.mem_cons_self y t)))

theorem foldl_max_eq {α : Type} [LinearOrder α] {v : α} {l : List α} {a : α}
    (hv : v ∈ l) (hge : ∀ x ∈ l, x ≤ v) (ha : a ≤ v) : l.foldl max a = v :=
  le_antisymm (foldl_max_le hge ha) (foldl_max_ge_mem hv a)

theorem foldl_max_mem {α : Type} [LinearOrder α] (l : List α) :
    ∀ a : α, l.foldl max a = a ∨ l.foldl max a ∈ l := by
  induction l with
  | nil => exact fun a => Or.inl rfl
  | cons y t ih =>
    intro a
    rcases ih (max a y) with h | h
    · rcases max_choice a y with h' | h'
      · exact Or.inl (h.trans h')
      · exact Or.inr (by rw [List.foldl_cons, h, h']; exact List.mem_cons_self y t)
    · exact Or.inr (List.mem_cons_of_mem y h)

/-- Normalizing a table whose extrema are genuine elements (guaranteed as
soon as one element is strictly inside the `f32` range) maps its minimum to 0
and its maximum to 1. -/
theorem normalize_min_max (l : List ℚ)
    (hex : ∃ x ∈ l, |x| < f32Max)
    (hr : tableMax l - tableMin l > 1 / 1000000) :
    tableMin (l.map fun p => (p - tableMin l) * (1 / (tableMax l - tableMin l)))
        = 0 ∧
    tableMax (l.map fun p => (p - tableMin l) * (1 / (tableMax l - tableMin l)))
        = 1 := by
  obtain ⟨x0, hx0, hx0b⟩ := hex
  have hmmem : tableMin l ∈ l := by
    rcases foldl_min_mem l f32Max with h | h
    · exfalso
      have h1 : tableMin l ≤ x0 := foldl_min_le_mem hx0 f32Max
      have h2 := (abs_lt.1 hx0b).2
      rw [tableMin] at h1
      rw [h] at h1
      linarith
    · exact h
  have hMmem : tableMax l ∈ l := by
    rcases foldl_max_mem l (-f32Max) with h | h
    · exfalso
      have h1 : x0 ≤ tableMax l := foldl_max_ge_mem hx0 (-f32Max)
      have h2 := (abs_lt.1 hx0b).1
      rw [tableMax] at h1
      rw [h] at h1
      linarith
    · exact h
  have hmle : ∀ x ∈ l, tableMin l ≤ x := fun x hx => foldl_min_le_mem hx f32Max
  have hMge : ∀ x ∈ l, x ≤ tableMax l := fun x hx => foldl_max_ge_mem hx (-f32Max)
  have hrpos : 0 < tableMax l - tableMin l := by linarith
  constructor
  · apply foldl_min_eq
    · exact List.mem_map.2 ⟨tableMin l, hmmem, by rw [sub_self, zero_mul]⟩
    · intro x hx
      obtain ⟨p, hp, rfl⟩ := List.mem_map.1 hx
      have h1 := hmle p hp
      have h2 : (0:ℚ) < 1 / (tableMax l - tableMin l) := by positivity
      exact mul_nonneg (by linarith) h2.le
    · norm_num [f32Max]
  · apply foldl_max_eq
    · refine List.mem_map.2 ⟨tableMax l, hMmem, ?_⟩
      rw [mul_one_div, div_self (ne_of_gt hrpos)]
    · intro x hx
      obtain ⟨p, hp, rfl⟩ := List.mem_map.1 hx
      have h1 := hMge p hp
      have h2 : (0:ℚ) < 1 / (tableMax l - tableMin l) := by positivity
      have h3 : (p - tableMin l) * (1 / (tableMax l - tableMin l)) ≤
          (tableMax l - tableMin l) * (1 / (tableMax l - tableMin l)) :=
        mul_le_mul_of_nonneg_right (by linarith) h2.le
      rwa [mul_one_div (tableMax l - tableMin l) (tableMax l - tableMin l),
        div_self (ne_of_gt hrpos)] at h3
    · norm_num [f32Max]

/-- The tabulation-then-normalization path of `from_points` (at least two
control points): if the table range exceeds `1e-6` the table is normalized —
positions shifted/scaled to `[0, 1]` (minimum exactly 0, maximum exactly 1)
and speeds scaled by `1/range` — otherwise every position becomes `0.5` and
every speed `0`. -/
theorem from_points_general (points : List ℚ) (res : ℕ)
    (hlen : 2 ≤ points.length)
    (hex : ∃ q ∈ rawPositions points res, |q| < f32Max) :
    (tableMax (rawPositions points res) - tableMin (rawPositions points res)
        > 1 / 1000000 →
      SplineWaveform.from_points points res = .ok
        ⟨res,
         (rawPositions points res).map fun p =>
           (p - tableMin (rawPositions points res)) *
             (1 / (tableMax (rawPositions points res) -
                   tableMin (rawPositions points res))),
         (rawSpeeds points res).map fun s =>
           s * (1 / (tableMax (rawPositions points res) -
                     tableMin (rawPositions points res)))⟩ ∧
      tableMin ((rawPositions points res).map fun p =>
           (p - tableMin (rawPositions points res)) *
             (1 / (tableMax (rawPositions points res) -
                   tableMin (rawPositions points res)))) = 0 ∧
      tableMax ((rawPositions points res).map fun p =>
           (p - tableMin (rawPositions points res)) *
             (1 / (tableMax (rawPositions points res) -
                   tableMin (rawPositions points res)))) = 1) ∧
    (¬(tableMax (rawPositions points res) - tableMin (rawPositions points res)
        > 1 / 1000000) →
      SplineWaveform.from_points points res = .ok
        ⟨res, List.replicate res (1 / 2), List.replicate res 0⟩) := by
  constructor
  · intro hr
    have heq : SplineWaveform.from_points points res = .ok
        ⟨res,
         (rawPositions points res).map fun p =>
           (p - tableMin (rawPositions points res)) *
             (1 / (tableMax (rawPositions points res) -
                   tableMin (rawPositions points res))),
         (rawSpeeds points res).map fun s =>
           s * (1 / (tableMax (rawPositions points res) -
                     tableMin (rawPositions points res)))⟩ := by
      unfold SplineWaveform.from_points
      rw [if_neg (by omega), if_neg (by omega)]
      simp only []
      rw [if_pos hr]
    have hmm := normalize_min_max (rawPositions points res) hex hr
    exact ⟨heq, hmm.1, hmm.2⟩
  · intro hnr
    unfold SplineWaveform.from_points
    rw [if_neg (by omega), if_neg (by omega)]
    simp only []
    rw [if_neg hnr]

theorem getD_replicate_of_lt {n j : ℕ} (c d : ℚ) (h : j < n) :
    (List.replicate n c).getD j d = c := by
  rw [List.getD_eq_getElem _ _ (by simpa using h)]
  exact List.getElem_replicate ..

theorem getD_pair {α : Type} (x y d : α) (j : ℕ) :
    ([x, y] : List α).getD j d = if j = 0 then x else if j = 1 then y else d := by
  match j with
  | 0 => rfl
  | 1 => rfl
  | n + 2 => simp [List.getD]

/-- For two equal control points every tabulated entry is that point with
speed 0: both Hermite endpoints coincide and all tangents vanish. -/
theorem rawEntry_pair_const (a : ℚ) (res i : ℕ) :
    rawEntry [a, a] res i = (a, 0) := by
  have htan : tangents [a, a] = [0, 0] := by
    unfold tangents
    norm_num [List.range_succ, List.getD]
  have hta : ∀ j : ℕ, ([0, 0] : List ℚ).getD j 0 = 0 := by
    intro j
    rw [getD_pair]
    split_ifs <;> rfl
  have hpa : ∀ j : ℕ, j ≤ 1 → ([a, a] : List ℚ).getD j 0 = a := by
    intro j hj
    rw [getD_pair]
    interval_cases j <;> simp
  unfold rawEntry
  rw [htan]
  simp only [List.length_cons, List.length_nil]
  rw [hta, hta, hpa _ (le_trans (min_le_right _ _) (by norm_num)),
    hpa _ (Nat.lt_succ_iff.1 (Nat.mod_lt _ (by norm_num)))]
  rw [Prod.mk.injEq]
  constructor
  · ring
  · rw [if_pos (by positivity : (0:ℚ) < 1 / ((2:ℕ) : ℚ))]
    rw [div_eq_iff (by positivity : (1:ℚ) / ((2:ℕ) : ℚ) ≠ 0)]
    ring

theorem rawPositions_pair_const (a : ℚ) (res : ℕ) :
    rawPositions [a, a] res = List.replicate res a := by
  refine List.eq_replicate_iff.2 ⟨by simp [rawPositions], ?_⟩
  intro b hb
  obtain ⟨i, _, hfeq⟩ := List.mem_map.1 hb
  rw [← hfeq, rawEntry_pair_const]

theorem rawSpeeds_pair_const (a : ℚ) (res : ℕ) :
    rawSpeeds [a, a] res = List.replicate res 0 := by
  refine List.eq_replicate_iff.2 ⟨by simp [rawSpeeds], ?_⟩
  intro b hb
  obtain ⟨i, _, hfeq⟩ := List.mem_map.1 hb
  rw [← hfeq, rawEntry_pair_const]

theorem tableMin_replicate {n : ℕ} (hn : 1 ≤ n) {c : ℚ} (hc : c ≤ f32Max) :
    tableMin (List.replicate n c) = c :=
  foldl_min_eq (List.mem_replicate.2 ⟨by omega, rfl⟩)
    (fun _ hx => (List.eq_of_mem_replicate hx).ge) hc

theorem tableMax_replicate {n : ℕ} (hn : 1 ≤ n) {c : ℚ} (hc : -f32Max ≤ c) :
    tableMax (List.replicate n c) = c :=
  foldl_max_eq (List.mem_replicate.2 ⟨by omega, rfl⟩)
    (fun _ hx => (List.eq_of_mem_replicate hx).le) hc

/-- Evaluating a constant table: both interpolation branches return the
constant with zero speed. -/
theorem evaluate_const_table (res : ℕ) (c t bpm : ℚ) (hres : 1 ≤ res) :
    (SplineWaveform.mk res (List.replicate res c)
      (List.replicate res 0)).evaluate t bpm = (c, 0) := by
  simp only [SplineWaveform.evaluate]
  split_ifs with h
  · rw [getD_replicate_of_lt c 0 (by omega), getD_replicate_of_lt 0 0 (by omega),
      zero_mul]
  · have h' := Nat.lt_of_not_le h
    rw [getD_replicate_of_lt c 0 (by omega : Int.toNat
        ⌊rustMod1 (t * (bpm / 60)) * ((res : ℚ) - 1)⌋ < res),
      getD_replicate_of_lt c 0
        (by omega : min (Int.toNat
          ⌊rustMod1 (t * (bpm / 60)) * ((res : ℚ) - 1)⌋ + 1) (res - 1) < res),
      getD_replicate_of_lt 0 0 (by omega : Int.toNat
        ⌊rustMod1 (t * (bpm / 60)) * ((res : ℚ) - 1)⌋ < res),
      getD_replicate_of_lt 0 0
        (by omega : min (Int.toNat
          ⌊rustMod1 (t * (bpm / 60)) * ((res : ℚ) - 1)⌋ + 1) (res - 1) < res)]
    rw [Prod.mk.injEq]
    constructor <;> ring

theorem rawEntry4_0 : (rawEntry [0, 1/2, 1, 1/2] 1500 0).1 = 0 := by
  norm_num [rawEntry, tangents, List.range_succ, List.getD]

theorem rawEntry4_750 : 1/2 ≤ (rawEntry [0, 1/2, 1, 1/2] 1500 750).1 := by
  norm_num [rawEntry, tangents, List.range_succ, List.getD,
    show Int.toNat 2 = 2 from rfl]

theorem rawEntry01_0 : (rawEntry [0, 1] 2 0).1 = 0 := by
  norm_num [rawEntry, tangents, List.range_succ, List.getD]

theorem rawEntry01_1 : (rawEntry [0, 1] 2 1).1 = 0 := by
  norm_num [rawEntry, tangents, List.range_succ, List.getD,
    show Int.toNat 2 = 2 from rfl]

theorem rawPositions01 : rawPositions [0, 1] 2 = [0, 0] := by
  unfold rawPositions
  rw [show List.range 2 = [0, 1] from rfl]
  rw [List.map_cons, List.map_cons, List.map_nil, rawEntry01_0, rawEntry01_1]

set_option maxRecDepth 16000 in
/-- C7.  After tabulating the Catmull-Rom table (at least two control
points): if the range of tabulated `y` exceeds `1e-6` the table is
normalized so its minimum is 0 and its maximum is 1 and the speeds are
scaled by `1/range`; otherwise every entry becomes `0.5` with speed `0`.
In particular points `[0.2, 0.2]` give the constant waveform `y = 0.5` with
speed `0` at every phase, and points `[0.0, 0.5, 1.0, 0.5]` give a table
with minimum 0 and maximum 1. -/
theorem c7_spline_normalization :
    (∀ (points : List ℚ) (res : ℕ), 2 ≤ points.length →
      (∃ q ∈ rawPositions points res, |q| < f32Max) →
      (tableMax (rawPositions points res) - tableMin (rawPositions points res)
          > 1 / 1000000 →
        SplineWaveform.from_points points res = .ok
          ⟨res,
           (rawPositions points res).map fun p =>
             (p - tableMin (rawPositions points res)) *
               (1 / (tableMax (rawPositions points res) -
                     tableMin (rawPositions points res))),
           (rawSpeeds points res).map fun s =>
             s * (1 / (tableMax (rawPositions points res) -
                       tableMin (rawPositions points res)))⟩ ∧
        tableMin ((rawPositions points res).map fun p =>
             (p - tableMin (rawPositions points res)) *
               (1 / (tableMax (rawPositions points res) -
                     tableMin (rawPositions points res)))) = 0 ∧
        tableMax ((rawPositions points res).map fun p =>
             (p - tableMin (rawPositions points res)) *
               (1 / (tableMax (rawPositions points res) -
                     tableMin (rawPositions points res)))) = 1) ∧
      (¬(tableMax (rawPositions points res) -
          tableMin (rawPositions points res) > 1 / 1000000) →
        SplineWaveform.from_points points res = .ok
          ⟨res, List.replicate res (1 / 2), List.replicate res 0⟩)) ∧
    (∃ w, SplineWaveform.from_points [1/5, 1/5] 1500 = .ok w ∧
      ∀ t bpm, w.evaluate t bpm = (1/2, 0)) ∧
    (∃ w, SplineWaveform.from_points [0, 1/2, 1, 1/2] 1500 = .ok w ∧
      tableMin w.positions = 0 ∧ tableMax w.positions = 1) := by
  refine ⟨fun points res hlen hex => from_points_general points res hlen hex,
    ?_, ?_⟩
  · have h1 : SplineWaveform.from_points [1/5, 1/5] 1500 = .ok
        ⟨1500, List.replicate 1500 (1/2), List.replicate 1500 0⟩ := by
      unfold SplineWaveform.from_points
      rw [if_neg (by simp), if_neg (by simp)]
      simp only []
      rw [rawPositions_pair_const,
        tableMin_replicate (by norm_num) (by norm_num [f32Max]),
        tableMax_replicate (by norm_num) (by norm_num [f32Max]),
        if_neg (by norm_num)]
    exact ⟨_, h1, fun t bpm => evaluate_const_table 1500 (1/2) t bpm (by norm_num)⟩
  · have hmem0 : (rawEntry [0, 1/2, 1, 1/2] 1500 0).1
        ∈ rawPositions [0, 1/2, 1, 1/2] 1500 :=
      List.mem_map.2 ⟨0, List.mem_range.2 (by norm_num), rfl⟩
    have hmem750 : (rawEntry [0, 1/2, 1, 1/2] 1500 750).1
        ∈ rawPositions [0, 1/2, 1, 1/2] 1500 :=
      List.mem_map.2 ⟨750, List.mem_range.2 (by norm_num), rfl⟩
    have hex : ∃ q ∈ rawPositions [0, 1/2, 1, 1/2] 1500, |q| < f32Max :=
      ⟨_, hmem0, by rw [rawEntry4_0]; norm_num [f32Max]⟩
    have hr : tableMax (rawPositions [0, 1/2, 1, 1/2] 1500) -
        tableMin (rawPositions [0, 1/2, 1, 1/2] 1500) > 1 / 1000000 := by
      have h1 : tableMin (rawPositions [0, 1/2, 1, 1/2] 1500) ≤ 0 := by
        rw [tableMin]
        have h := foldl_min_le_mem hmem0 f32Max
        rwa [rawEntry4_0] at h
      have h2 : 1/2 ≤ tableMax (rawPositions [0, 1/2, 1, 1/2] 1500) := by
        rw [tableMax]
        exact le_trans rawEntry4_750 (foldl_max_ge_mem hmem750 (-f32Max))
      linarith
    obtain ⟨heq, hmin, hmax⟩ :=
      (from_points_general [0, 1/2, 1, 1/2] 1500 (by norm_num) hex).1 hr
    exact ⟨_, heq, hmin, hmax⟩

/-- C7 witness: points `[0, 1]` at resolution 2 tabulate to `[0, 0]`
(range 0), so `from_points` takes the constant-fallback branch. -/
theorem c7_witness :
    2 ≤ ([0, 1] : List ℚ).length ∧
    (∃ q ∈ rawPositions [0, 1] 2, |q| < f32Max) ∧
    SplineWaveform.from_points [0, 1] 2 = .ok
      ⟨2, List.replicate 2 (1/2), List.replicate 2 0⟩ := by
  have hmem0 : (rawEntry [0, 1] 2 0).1 ∈ rawPositions [0, 1] 2 :=
    List.mem_map.2 ⟨0, List.mem_range.2 (by norm_num), rfl⟩
  have hex : ∃ q ∈ rawPositions [0, 1] 2, |q| < f32Max :=
    ⟨_, hmem0, by rw [rawEntry01_0]; norm_num [f32Max]⟩
  refine ⟨by norm_num, hex, ?_⟩
  refine (c7_spline_normalization.1 [0, 1] 2 (by norm_num) hex).2 ?_
  rw [rawPositions01]
  norm_num [tableMin, tableMax, List.foldl_cons, List.foldl_nil, f32Max]

end OSSM
